import Mathlib

/-!
Verification development for the SemanticRouter MCP tool router.

Python strings are modelled as lists of characters (`PyStr`); Python dicts
as association lists in insertion order; fallible operations as `Except`;
the mutable engine and manager state as explicit state records threaded
through the operations.  External collaborators (the stdio transport, the
sentence-transformer model) are modelled as oracle parameters, following
the interface contract the core consumes.  Floating-point similarity
scores are abstracted to an arbitrary rational-valued similarity function,
since every property proved here concerns only ranking structure, never
the numeric values themselves.
-/

abbrev PyStr := List Char

/-- Coerces a Lean string literal into the `PyStr` character-list model. -/
def pstr (s : String) : PyStr := s.data

/-- Characters matched by the regex class backslash-s of the Python `re`
module (Unicode mode), restricted to code points below 256, where this
table is exact: tab, newline, vertical tab, form feed, carriage return,
the separator controls 28-31, space, next-line (133) and no-break
space (160).  Used by `re.sub` in `sanitize_query` and by `str.strip`. -/
def pyIsSpace (c : Char) : Bool :=
  let n := c.toNat
  n == 9 || n == 10 || n == 11 || n == 12 || n == 13 ||
    (decide (28 ≤ n) && decide (n ≤ 31)) || n == 32 || n == 133 || n == 160

/-- Characters matched by the regex class backslash-w of the Python `re`
module (Unicode mode): ASCII letters, digits and underscore, plus every
other Unicode alphanumeric.  The table is exact for code points below
256 (the Latin-1 range: feminine/masculine ordinals, superscripts, micro
sign, vulgar fractions, and the accented letters except multiplication
and division signs).  Above 255 Python consults the full Unicode tables,
which this model does not reproduce; every theorem below therefore
quantifies over ASCII inputs only, and the one counterexample uses the
Latin-1 letter at code point 233 where the table is exact. -/
def pyIsWordChar (c : Char) : Bool :=
  let n := c.toNat
  (decide (48 ≤ n) && decide (n ≤ 57)) ||
  (decide (65 ≤ n) && decide (n ≤ 90)) ||
  (decide (97 ≤ n) && decide (n ≤ 122)) || n == 95 ||
  n == 170 || n == 178 || n == 179 || n == 181 || n == 185 || n == 186 ||
  n == 188 || n == 189 || n == 190 ||
  (decide (192 ≤ n) && decide (n ≤ 214)) ||
  (decide (216 ≤ n) && decide (n ≤ 246)) ||
  (decide (248 ≤ n) && decide (n ≤ 255))

/-- Punctuation kept by `sanitize_query`: the characters `.,!?-` that the
source regex `[^\w\s.,!?-]` exempts from replacement. -/
def pyIsKeptPunct (c : Char) : Bool :=
  c == '.' || c == ',' || c == '!' || c == '?' || c == '-'

/-- Keep-set of the first substitution in `sanitize_query`
(`re.sub` with pattern `[^\w\s.,!?-]`): word characters, whitespace and
the listed punctuation survive; everything else becomes a space. -/
def sanitizeKeep (c : Char) : Bool :=
  pyIsWordChar c || pyIsSpace c || pyIsKeptPunct c

/-- First step of `sanitize_query`: replace every character outside the
keep-set with a space (source: `re.sub` with pattern `[^\w\s.,!?-]`). -/
def replaceSpecial (s : PyStr) : PyStr :=
  s.map (fun c => if sanitizeKeep c then c else ' ')

/-- Worker for whitespace-run collapsing: `prevWs` records whether the
previous character belonged to a whitespace run already emitted as a
single space. -/
def collapseAux (ws : Char → Bool) : PyStr → Bool → PyStr
  | [], _ => []
  | c :: rest, prevWs =>
    if ws c then
      if prevWs then collapseAux ws rest true
      else ' ' :: collapseAux ws rest true
    else c :: collapseAux ws rest false

/-- Second step of `sanitize_query`: collapse each maximal run of
whitespace into one space (source: `re.sub` with pattern of one-or-more
whitespace). -/
def collapseWs (ws : Char → Bool) (s : PyStr) : PyStr :=
  collapseAux ws s false

/-- Python `str.strip()` over a whitespace predicate: drop leading and
trailing whitespace characters. -/
def trimWs (ws : Char → Bool) (s : PyStr) : PyStr :=
  ((s.dropWhile ws).reverse.dropWhile ws).reverse

/-- Embeds `sanitize_query` from `mcp_router/search/sanitize.py`: replace
characters outside the keep-set with spaces, collapse whitespace runs,
strip. -/
def sanitize_query (s : PyStr) : PyStr :=
  trimWs pyIsSpace (collapseWs pyIsSpace (replaceSpecial s))

/-- Joins a list of strings with single spaces, as Python
`str.join` with separator one space. -/
def joinSpace (xs : List PyStr) : PyStr :=
  List.intercalate [' '] xs

/-- Embeds `combine_query_and_context` from
`mcp_router/search/sanitize.py`.  `Option` distinguishes the Python
`None` default from an explicit list; `if not context` in the source
also treats the empty list as absent, and the generator filters out
falsy (empty) context strings before sanitizing. -/
def combine_query_and_context (query : PyStr) (context : Option (List PyStr)) : PyStr :=
  let sq := sanitize_query query
  match context with
  | none => sq
  | some ctx =>
    if ctx.isEmpty then sq
    else
      let sc := joinSpace ((ctx.filter (fun c => !c.isEmpty)).map sanitize_query)
      if sc.isEmpty then sq else sq ++ [' '] ++ sc

/-- Keep-set written from the specification text of claim C5: exactly
the ASCII class listed there — letters, digits, underscore, space and
the punctuation `.,!?-`. -/
def specKeep (c : Char) : Bool :=
  let n := c.toNat
  (decide (48 ≤ n) && decide (n ≤ 57)) ||
  (decide (65 ≤ n) && decide (n ≤ 90)) ||
  (decide (97 ≤ n) && decide (n ≤ 122)) ||
  c == '_' || c == ' ' || c == '.' || c == ',' || c == '!' || c == '?' || c == '-'

/-- Sanitization as the specification words it: replace any character
not in the ASCII class with a space, collapse runs of whitespace (after
replacement only the space character remains as whitespace) to a single
space, and trim. -/
def sanitizeSpec (s : PyStr) : PyStr :=
  trimWs (fun c => c == ' ') (collapseWs (fun c => c == ' ')
    (s.map (fun c => if specKeep c then c else ' ')))

/-- Combination as the amended claim words it: each supplied non-empty
context string is sanitized, the non-empty results are joined with
single spaces, and the join is appended to the sanitized query after a
single space when it is non-empty. -/
def specCombine (query : PyStr) (ctx : List PyStr) : PyStr :=
  if ctx.isEmpty then sanitizeSpec query
  else
    let sc := joinSpace ((ctx.filter (fun c => !c.isEmpty)).map sanitizeSpec)
    if sc.isEmpty then sanitizeSpec query else sanitizeSpec query ++ [' '] ++ sc

/-- Holds when every character of the string is ASCII. -/
def allAscii (s : PyStr) : Prop := ∀ c ∈ s, c.toNat < 128

/-- JSON values as exchanged over MCP.  Python distinguishes `bool`,
`int` and `float` as runtime classes; `jnum` stands for float values
(Python `isinstance(x, int)` is false for floats, even integral ones,
and true for bools). -/
inductive JValue where
  | null
  | jbool (b : Bool)
  | jint (n : Int)
  | jnum (q : ℚ)
  | jstr (s : PyStr)
  | jarr (items : List JValue)
  | jobj (fields : List (PyStr × JValue))

/-- Embeds the `JSONSchema` dataclass from `mcp_router/core/models.py`.
Property sub-schemas are arbitrary JSON values, as in the source where
`properties` maps names to plain dicts. -/
structure JSONSchema where
  type : PyStr
  properties : Option (List (PyStr × JValue)) := none
  required : Option (List PyStr) := none
  additionalProperties : Option Bool := none
  description : Option PyStr := none
  items : Option JValue := none
  enum : Option (List JValue) := none
  default : Option JValue := none

/-- Embeds `_validate_type` from `mcp_router/core/validation.py`: the
`type_mapping` dispatch on the expected JSON-schema type name, with
Python `isinstance` semantics.  Because Python `bool` is a subclass of
`int`, boolean values satisfy both the `integer` and the `number`
check.  An unknown type name is accepted (the mapping lookup returns
`None`). -/
def validate_type (value : JValue) (expected : PyStr) : Bool :=
  if expected == pstr "string" then
    match value with | .jstr _ => true | _ => false
  else if expected == pstr "number" then
    match value with | .jint _ => true | .jnum _ => true | .jbool _ => true | _ => false
  else if expected == pstr "integer" then
    match value with | .jint _ => true | .jbool _ => true | _ => false
  else if expected == pstr "boolean" then
    match value with | .jbool _ => true | _ => false
  else if expected == pstr "array" then
    match value with | .jarr _ => true | _ => false
  else if expected == pstr "object" then
    match value with | .jobj _ => true | _ => false
  else if expected == pstr "null" then
    match value with | .null => true | _ => false
  else true

/-- Required-field pass of `validate_tool_parameters`: error on the
first required name missing from the arguments dict. -/
def checkRequired (params : List (PyStr × JValue)) : List PyStr → Except PyStr Unit
  | [] => .ok ()
  | r :: rest =>
    match params.lookup r with
    | some _ => checkRequired params rest
    | none => .error (pstr "Missing required parameter: " ++ r)

/-- Reads the `type` field of a property sub-schema, as
`param_schema.get` does on a dict; a sub-schema that is not a dict has
no type.  Non-string `type` values (which the source either skips as
falsy or chokes on as unhashable) are outside this model and treated as
absent; no claim exercises them. -/
def getSchemaType (ps : JValue) : Option PyStr :=
  match ps with
  | .jobj fields =>
    match fields.lookup (pstr "type") with
    | some (.jstr s) => some s
    | _ => none
  | _ => none

/-- Per-argument pass of `validate_tool_parameters`: unknown names
error; a declared non-empty string type is checked with
`validate_type`; an absent or empty (falsy) type skips the check. -/
def checkParams (props : List (PyStr × JValue)) : List (PyStr × JValue) → Except PyStr Unit
  | [] => .ok ()
  | (k, v) :: rest =>
    match props.lookup k with
    | none => .error (pstr "Unknown parameter: " ++ k)
    | some ps =>
      match getSchemaType ps with
      | some ty =>
        if ty.isEmpty then checkParams props rest
        else if validate_type v ty then checkParams props rest
        else .error (pstr "Invalid type for parameter " ++ k)
      | none => checkParams props rest

/-- Embeds `validate_tool_parameters` from
`mcp_router/core/validation.py`.  When the schema has no `properties`
the function returns immediately, before the required-field loop. -/
def validate_tool_parameters (params : List (PyStr × JValue)) (schema : JSONSchema) :
    Except PyStr Unit :=
  match schema.properties with
  | none => .ok ()
  | some props => do
    checkRequired params (match schema.required with | some r => r | none => [])
    checkParams props params

/-- Embeds the `UpstreamConfig` dataclass from `mcp_router/core/config.py`
(`semantic_prefix` is spelled `semanticPrefix` here). -/
structure UpstreamConfig where
  transport : PyStr
  command : Option PyStr := none
  args : List PyStr := []
  url : Option PyStr := none
  semanticPrefix : Option PyStr := none
  category_description : Option PyStr := none
  aliases : List PyStr := []

/-- Prefix selection shared by `generate_tool_namespace` and
`UpstreamConnection.fetch_tools`: the Python truthiness test
`config.semantic_prefix or upstream_id` falls back to the upstream id
both when the field is `None` and when it is the empty string. -/
def namespacePrefixOf (upstream_id : PyStr) (cfg : UpstreamConfig) : PyStr :=
  match cfg.semanticPrefix with
  | some p => if p.isEmpty then upstream_id else p
  | none => upstream_id

/-- Embeds `generate_tool_namespace` from `mcp_router/core/namespace.py`. -/
def generate_tool_namespace (upstream_id : PyStr) (original_tool_name : PyStr)
    (cfg : UpstreamConfig) : PyStr :=
  namespacePrefixOf upstream_id cfg ++ '.' :: original_tool_name

/-- Splits a string at its first dot, as Python `split` with separator
dot and maxsplit one; `none` when the string has no dot (the source
raises `ValueError` in that case). -/
def splitOnFirstDot : PyStr → Option (PyStr × PyStr)
  | [] => none
  | c :: rest =>
    if c = '.' then some ([], rest)
    else (splitOnFirstDot rest).map (fun p => (c :: p.1, p.2))

/-- Embeds `parse_tool_namespace` from `mcp_router/core/namespace.py`;
`none` stands for the `ValueError` raised on a malformed name: no dot,
empty or whitespace-only left part, or a right part that is empty or
strips to dots and whitespace only. -/
def parse_tool_namespace (s : PyStr) : Option (PyStr × PyStr) :=
  match splitOnFirstDot s with
  | none => none
  | some (p, t) =>
    if p.isEmpty || (trimWs pyIsSpace p).isEmpty then none
    else if t.isEmpty || (trimWs pyIsSpace t).isEmpty ||
        ((trimWs pyIsSpace t).filter (fun c => !(c == '.'))).isEmpty then none
    else some (p, t)

/-- Prefix selection as claim C9 words it: the configured semantic
prefix when present, the upstream id otherwise (no truthiness test). -/
def specPrefixOf (upstream_id : PyStr) (cfg : UpstreamConfig) : PyStr :=
  match cfg.semanticPrefix with
  | some p => p
  | none => upstream_id

/-- Embeds the `ToolMetadata` dataclass from `mcp_router/core/models.py`.
Embedding vectors are lists of rationals standing in for the numpy
float32 arrays; only their presence and identity matter to the claims. -/
structure ToolMetadata where
  name : PyStr
  original_name : PyStr
  description : PyStr
  input_schema : JSONSchema
  upstream_id : PyStr
  embedding : Option (List ℚ) := none
  category_description : Option PyStr := none

/-- Embeds the `SearchResult` dataclass from `mcp_router/core/models.py`. -/
structure SearchResult where
  tool : ToolMetadata
  similarity : ℚ

/-- Embedding-presence pass of `SemanticSearchEngine.add_tools`: error at
the first tool whose `embedding` is `None`. -/
def checkEmbeddings : List ToolMetadata → Except PyStr Unit
  | [] => .ok ()
  | t :: rest =>
    match t.embedding with
    | some _ => checkEmbeddings rest
    | none => .error (pstr "Tool is missing embedding: " ++ t.name)

/-- Duplicate pass of `SemanticSearchEngine.add_tools`: each batch tool
is checked against `existing`, the names already in the catalog — the
source builds that set once, before the loop, so two equal names inside
the batch are not compared with each other. -/
def checkDuplicates (existing : List PyStr) : List ToolMetadata → Except PyStr Unit
  | [] => .ok ()
  | t :: rest =>
    if existing.contains t.name then
      .error (pstr "Tool already exists in catalog: " ++ t.name)
    else checkDuplicates existing rest

/-- Embeds `SemanticSearchEngine.add_tools` from
`mcp_router/search/engine.py`; the engine catalog `_tools` is passed and
returned explicitly. -/
def add_tools (catalog : List ToolMetadata) (tools : List ToolMetadata) :
    Except PyStr (List ToolMetadata) :=
  if tools.isEmpty then .ok catalog
  else do
    checkEmbeddings tools
    checkDuplicates (catalog.map ToolMetadata.name) tools
    .ok (catalog ++ tools)

/-- Embeds `SemanticSearchEngine.remove_tools` from
`mcp_router/search/engine.py`: error on an empty namespace, otherwise
drop every tool whose name starts with the namespace followed by a dot
(the no-match early return leaves the same catalog). -/
def remove_tools (catalog : List ToolMetadata) (ns : PyStr) :
    Except PyStr (List ToolMetadata) :=
  if ns.isEmpty then .error (pstr "Namespace cannot be empty")
  else .ok (catalog.filter (fun t => !((ns ++ ['.']).isPrefixOf t.name)))

/-- Embeds `EmbeddingEngine.generate_embedding` from
`mcp_router/embedding/engine.py` for an initialized engine: the empty-
or whitespace-text guard is repository code; the sentence-transformer
call itself is the oracle `encode`, assumed (per the external contract)
to return a vector of the model dimension. -/
def generate_embedding (encode : PyStr → List ℚ) (text : PyStr) : Except PyStr (List ℚ) :=
  if text.isEmpty || (trimWs pyIsSpace text).isEmpty then
    .error (pstr "Cannot generate embedding for empty text")
  else .ok (encode text)

/-- Collects `tool.embedding` for every catalog tool, as the list
comprehension in `search_tools` does; a `None` embedding, which would
make the numpy cosine computation raise, is modelled as an error. -/
def getEmbeddings : List ToolMetadata → Except PyStr (List (List ℚ))
  | [] => .ok []
  | t :: rest =>
    match t.embedding with
    | some e => do
      let es ← getEmbeddings rest
      .ok (e :: es)
    | none => .error (pstr "embedding is None")

/-- Descending-similarity comparison used to sort search results; Python
`list.sort` with a key and `reverse=True` is a stable descending sort,
and a stable sort is extensionally unique, so `List.insertionSort` with
this relation computes the same list. -/
def bySimilarityDesc (a b : SearchResult) : Prop :=
  b.similarity ≤ a.similarity

instance : DecidableRel bySimilarityDesc :=
  fun a b => inferInstanceAs (Decidable (b.similarity ≤ a.similarity))

instance : IsTotal SearchResult bySimilarityDesc :=
  ⟨fun a b => (le_total b.similarity a.similarity).imp id id⟩

instance : IsTrans SearchResult bySimilarityDesc :=
  ⟨fun _ _ _ hab hbc => le_trans hbc hab⟩

/-- Embeds `SemanticSearchEngine.search_tools` from
`mcp_router/search/engine.py`.  `encode` is the external embedding
model, `sim` abstracts the numpy cosine-similarity computation (the
claims concern only ranking structure).  The final guard models the
completion log line, which indexes the first result and raises
`IndexError` when there is none. -/
def search_tools (encode : PyStr → List ℚ) (sim : List ℚ → List ℚ → ℚ)
    (tools : List ToolMetadata) (query : PyStr) (context : Option (List PyStr))
    (top_k : Nat) : Except PyStr (List SearchResult) :=
  if query.isEmpty || (trimWs pyIsSpace query).isEmpty then
    .error (pstr "Query cannot be empty")
  else if tools.isEmpty then
    .error (pstr "No tools loaded. Call set_tools() first.")
  else do
    let combined := combine_query_and_context query context
    let qe ← generate_embedding encode combined
    let embs ← getEmbeddings tools
    let results := List.zipWith (fun t s => SearchResult.mk t s) tools (embs.map (sim qe))
    let sorted := List.insertionSort bySimilarityDesc results
    let top := sorted.take top_k
    if top.isEmpty then .error (pstr "IndexError: list index out of range")
    else .ok top

/-- Grouping step of `select_default_tool_subset`: append the tool to
its upstream group, creating the group at the end on first sight, as
insertion into a Python dict of lists does. -/
def insertGrouped (t : ToolMetadata) : List (PyStr × List ToolMetadata) →
    List (PyStr × List ToolMetadata)
  | [] => [(t.upstream_id, [t])]
  | (u, g) :: rest =>
    if u = t.upstream_id then (u, g ++ [t]) :: rest
    else (u, g) :: insertGrouped t rest

/-- Embeds the `tools_by_upstream` dict built by
`select_default_tool_subset`: keys in first-seen order, each group in
catalog order. -/
def groupByUpstream (ts : List ToolMetadata) : List (PyStr × List ToolMetadata) :=
  ts.foldl (fun acc t => insertGrouped t acc) []

/-- Python string comparison (strict, lexicographic by code point). -/
def pyStrLt : PyStr → PyStr → Bool
  | [], [] => false
  | [], _ :: _ => true
  | _ :: _, [] => false
  | a :: as_, b :: bs => if a = b then pyStrLt as_ bs else decide (a < b)

/-- Python string comparison (non-strict). -/
def pyStrLe (a b : PyStr) : Bool := !pyStrLt b a

/-- Comparison of group entries by upstream id, for
`sorted(tools_by_upstream.keys())`. -/
def byUpstreamId (a b : PyStr × List ToolMetadata) : Prop :=
  pyStrLe a.1 b.1 = true

instance : DecidableRel byUpstreamId :=
  fun a b => inferInstanceAs (Decidable (pyStrLe a.1 b.1 = true))

/-- Comparison of tools by original name, for the per-group
`sort(key=lambda t: t.original_name)`. -/
def byOriginalName (a b : ToolMetadata) : Prop :=
  pyStrLe a.original_name b.original_name = true

instance : DecidableRel byOriginalName :=
  fun a b => inferInstanceAs (Decidable (pyStrLe a.original_name b.original_name = true))

instance : Inhabited ToolMetadata :=
  ⟨{ name := [], original_name := [], description := [],
     input_schema := { type := [] }, upstream_id := [] }⟩

/-- One pass of the round-robin `for upstream_id in upstream_ids` loop
in `select_default_tool_subset`: each state entry pairs a sorted group
with the count already taken from it; the inner break on reaching
`max_tools` leaves the remaining entries untouched. -/
def rrPass (maxT : Nat) : List ToolMetadata → List (List ToolMetadata × Nat) → Bool →
    List ToolMetadata × List (List ToolMetadata × Nat) × Bool
  | acc, [], added => (acc, [], added)
  | acc, (g, taken) :: rest, added =>
    if maxT ≤ acc.length then (acc, (g, taken) :: rest, added)
    else if taken < g.length then
      let r := rrPass maxT (acc ++ [g.getD taken default]) rest true
      (r.1, (g, taken + 1) :: r.2.1, r.2.2)
    else
      let r := rrPass maxT acc rest added
      (r.1, (g, taken) :: r.2.1, r.2.2)

/-- The `while len(default_tools) < max_tools` loop of
`select_default_tool_subset`.  Each productive pass appends at least one
tool, so `maxT + 1` iterations always reach the natural exit; the fuel
argument only bounds the recursion and never cuts the loop short. -/
def rrLoop : Nat → Nat → List ToolMetadata → List (List ToolMetadata × Nat) →
    List ToolMetadata
  | 0, _, acc, _ => acc
  | fuel + 1, maxT, acc, st =>
    if acc.length < maxT then
      let r := rrPass maxT acc st false
      if r.2.2 then rrLoop fuel maxT r.1 r.2.1 else r.1
    else acc

/-- The groups of `select_default_tool_subset` after its two sorts:
each upstream group sorted by original name, groups sorted by upstream
id. -/
def sortedGroupsOf (tools : List ToolMetadata) : List (PyStr × List ToolMetadata) :=
  List.insertionSort byUpstreamId
    ((groupByUpstream tools).map (fun p => (p.1, List.insertionSort byOriginalName p.2)))

/-- The per-upstream quota `tools_per_upstream = max(1, max_tools //
num_upstreams)` of `select_default_tool_subset`. -/
def baseOf (tools : List ToolMetadata) (max_tools : Nat) : Nat :=
  max 1 (max_tools / (sortedGroupsOf tools).length)

/-- The proportional first pass of `select_default_tool_subset`: from
each group, in sorted-upstream order, the first `base` tools. -/
def initialOf (tools : List ToolMetadata) (max_tools : Nat) : List ToolMetadata :=
  (sortedGroupsOf tools).flatMap (fun p => p.2.take (baseOf tools max_tools))

/-- Embeds `select_default_tool_subset` from
`mcp_router/search/default_subset.py`: group by upstream, sort each
group by original name, take `base` from each group in sorted-upstream
order, fill round-robin while below `max_tools`, truncate. -/
def select_default_tool_subset (tools : List ToolMetadata) (max_tools : Nat) :
    List ToolMetadata :=
  if tools.isEmpty then []
  else
    (if (initialOf tools max_tools).length < max_tools then
      rrLoop (max_tools + 1) max_tools (initialOf tools max_tools)
        ((sortedGroupsOf tools).map (fun p => (p.2, baseOf tools max_tools)))
    else initialOf tools max_tools).take max_tools

/-- Embeds the `LoadingConfig` dataclass from `mcp_router/core/config.py`
(fields the claims never read are kept for fidelity). -/
structure LoadingConfig where
  auto_load : List PyStr := [pstr "all"]
  lazy_load : Bool := true
  cache_embeddings : Bool := true
  connection_timeout : Nat := 30
  max_concurrent_upstreams : Nat := 10
  rate_limit : Nat := 5

/-- Embeds the `RouterConfig` dataclass from `mcp_router/core/config.py`;
`mcp_servers` is an insertion-ordered dict. -/
structure RouterConfig where
  mcp_servers : List (PyStr × UpstreamConfig)
  loading : Option LoadingConfig := none

/-- Python `str.lower()`; aliases are validated to ASCII letters, digits,
spaces, hyphens and underscores, on which ASCII lowering is exact. -/
def pyToLower (s : PyStr) : PyStr := s.map Char.toLower

/-- Dict assignment `m[k] = v`: overwrite in place, append on a new key. -/
def assocSet (m : List (PyStr × PyStr)) (k v : PyStr) : List (PyStr × PyStr) :=
  if m.any (fun p => p.1 == k) then m.map (fun p => if p.1 == k then (k, v) else p)
  else m ++ [(k, v)]

/-- Embeds the alias map built by `AliasResolver.__init__` in
`mcp_router/discovery/alias_resolver.py`: every alias, lowercased, maps
to its upstream; a duplicate alias is overwritten, so the
last-registered upstream wins. -/
def buildAliasMap (servers : List (PyStr × UpstreamConfig)) : List (PyStr × PyStr) :=
  servers.foldl
    (fun m su => su.2.aliases.foldl (fun m2 a => assocSet m2 (pyToLower a) su.1) m) []

/-- Embeds `AliasResolver.resolve`: an exact (case-sensitive) canonical
id wins, then the case-insensitive alias map; otherwise the
unknown-upstream `ValueError`. -/
def resolve (cfg : RouterConfig) (name : PyStr) : Except PyStr PyStr :=
  if (cfg.mcp_servers.map Prod.fst).contains name then .ok name
  else
    match (buildAliasMap cfg.mcp_servers).lookup (pyToLower name) with
    | some u => .ok u
    | none => .error (pstr "Unknown upstream or alias: " ++ name)

/-- Outcome of `UpstreamConnection.connect` under the
`asyncio.wait_for` timeout in `load_upstream`. -/
inductive ConnectOutcome where
  | ok
  | timeout
  | failed (msg : PyStr)

/-- One tool as returned by the upstream `tools/list` call, before
`fetch_tools` namespaces it. -/
structure RawTool where
  name : PyStr
  description : PyStr
  inputSchema : JSONSchema

/-- Oracle for the external effects of one `load_upstream` attempt: the
connect outcome, the upstream catalog reply, and the embedding-model
batch outcome with the vector assigned to each tool by position. -/
structure LoadOracle where
  connect : ConnectOutcome
  fetch : Except PyStr (List RawTool)
  embedOutcome : Except PyStr Unit
  embedVec : Nat → List ℚ

/-- Embeds the conversion loop of `UpstreamConnection.fetch_tools`
(`mcp_router/discovery/upstream.py` lines 107-121): the namespaced name
uses the semantic prefix or the upstream id, the schema is preserved,
and the upstream id and category description are stamped. -/
def fetchToolsConvert (upstream_id : PyStr) (cfg : UpstreamConfig) (raw : List RawTool) :
    List ToolMetadata :=
  raw.map (fun r =>
    { name := namespacePrefixOf upstream_id cfg ++ '.' :: r.name
      original_name := r.name
      description := r.description
      input_schema := r.inputSchema
      upstream_id := upstream_id
      embedding := none
      category_description := cfg.category_description })

/-- Worker for `embedTools`, carrying the position of the next tool in
the batch. -/
def embedToolsAux (vec : Nat → List ℚ) : Nat → List ToolMetadata → List ToolMetadata
  | _, [] => []
  | i, t :: rest => { t with embedding := some (vec i) } :: embedToolsAux vec (i + 1) rest

/-- Embeds the success case of
`EmbeddingEngine.generate_tool_embeddings`: each tool receives the
embedding the model produced for it, here supplied by the oracle
positionally. -/
def embedTools (vec : Nat → List ℚ) (ts : List ToolMetadata) : List ToolMetadata :=
  embedToolsAux vec 0 ts

/-- State of `ToolDiscoveryManager` visible to the claims: the keys of
`_loaded_upstreams` in insertion order, the mirrored `all_tools` list,
and the search engine catalog `_tools`.  (The `upstreams`
backward-compatibility dict always mirrors `_loaded_upstreams`.) -/
structure ManagerState where
  loaded_upstreams : List PyStr
  all_tools : List ToolMetadata
  engineTools : List ToolMetadata

/-- Manager state at construction time: nothing loaded, empty catalogs. -/
def initState : ManagerState :=
  { loaded_upstreams := [], all_tools := [], engineTools := [] }

/-- Connection bookkeeping of one `load_upstream` attempt: whether a
connection reached the ready state, and whether `disconnect` was
called on it. -/
structure ConnLog where
  opened : Bool := false
  disconnected : Bool := false
deriving DecidableEq

/-- Result dict of `load_upstream`: `{success: True, upstream,
tool_count}` or `{success: False, error}`. -/
inductive LoadResult where
  | success (upstream : PyStr) (tool_count : Nat)
  | failure (error : PyStr)
deriving DecidableEq

/-- Number of catalog tools owned by upstream `u` — the count the
idempotent branch of `load_upstream` computes over `all_tools`. -/
def countUpstreamTools (ts : List ToolMetadata) (u : PyStr) : Nat :=
  (ts.filter (fun t => t.upstream_id == u)).length

/-- Connection timeout drawn from the loading configuration, default 30. -/
def timeoutOf (cfg : RouterConfig) : Nat :=
  match cfg.loading with
  | some l => l.connection_timeout
  | none => 30

/-- Embeds `ToolDiscoveryManager.load_upstream` from
`mcp_router/discovery/manager.py` (lines 103-213): resolve, idempotent
short-circuit, configuration check, connect under timeout, fetch,
embed, add to the engine, then commit.  Every failure after a
successful connect calls `disconnect` and leaves the state untouched. -/
def load_upstream (cfg : RouterConfig) (o : LoadOracle) (name : PyStr)
    (st : ManagerState) : LoadResult × ManagerState × ConnLog :=
  match resolve cfg name with
  | .error e => (.failure e, st, {})
  | .ok canonical =>
    if st.loaded_upstreams.contains canonical then
      (.success canonical (countUpstreamTools st.all_tools canonical), st, {})
    else
      match cfg.mcp_servers.lookup canonical with
      | none =>
        (.failure (pstr "Upstream not found in configuration: " ++ canonical), st, {})
      | some ucfg =>
        match o.connect with
        | .timeout =>
          (.failure (pstr "Connection timeout after " ++ pstr (toString (timeoutOf cfg))
            ++ pstr "s"), st, {})
        | .failed m => (.failure (pstr "Connection failed: " ++ m), st, {})
        | .ok =>
          match o.fetch with
          | .error e =>
            (.failure (pstr "Failed to fetch tools: " ++ e), st,
              { opened := true, disconnected := true })
          | .ok raw =>
            match o.embedOutcome with
            | .error e =>
              (.failure (pstr "Failed to generate embeddings: " ++ e), st,
                { opened := true, disconnected := true })
            | .ok _ =>
              match add_tools st.engineTools
                  (embedTools o.embedVec (fetchToolsConvert canonical ucfg raw)) with
              | .error e =>
                (.failure (pstr "Failed to add tools to search engine: " ++ e), st,
                  { opened := true, disconnected := true })
              | .ok engine2 =>
                (.success canonical
                  (embedTools o.embedVec (fetchToolsConvert canonical ucfg raw)).length,
                  { loaded_upstreams := st.loaded_upstreams ++ [canonical]
                    all_tools := st.all_tools ++
                      embedTools o.embedVec (fetchToolsConvert canonical ucfg raw)
                    engineTools := engine2 },
                  { opened := true, disconnected := false })

/-- Embeds `ToolDiscoveryManager.unload_upstream` from
`mcp_router/discovery/manager.py` (lines 282-363): resolve, idempotent
success when not loaded, `remove_tools` keyed on the canonical name,
disconnect (failures swallowed), then drop the upstream from
`loaded_upstreams` and its tools from `all_tools` by upstream id. -/
def unload_upstream (cfg : RouterConfig) (name : PyStr) (st : ManagerState) :
    Except PyStr PyStr × ManagerState :=
  match resolve cfg name with
  | .error e => (.error e, st)
  | .ok canonical =>
    if !st.loaded_upstreams.contains canonical then (.ok canonical, st)
    else
      match remove_tools st.engineTools canonical with
      | .error e =>
        (.error (pstr "Failed to remove tools from search engine: " ++ e), st)
      | .ok engine2 =>
        (.ok canonical,
          { loaded_upstreams := st.loaded_upstreams.filter (fun u => !(u == canonical))
            all_tools := st.all_tools.filter (fun t => !(t.upstream_id == canonical))
            engineTools := engine2 })

/-- States of the discovery manager reachable from construction by any
sequence of (successful or failed) load and unload requests. -/
inductive Reachable (cfg : RouterConfig) : ManagerState → Prop
  | init : Reachable cfg initState
  | load (o : LoadOracle) (name : PyStr) {s : ManagerState} :
      Reachable cfg s → Reachable cfg (load_upstream cfg o name s).2.1
  | unload (name : PyStr) {s : ManagerState} :
      Reachable cfg s → Reachable cfg (unload_upstream cfg name s).2

instance : Inhabited UpstreamConfig := ⟨{ transport := [] }⟩

instance : Inhabited JSONSchema := ⟨{ type := [] }⟩

instance : Inhabited RawTool := ⟨{ name := [], description := [], inputSchema := default }⟩

instance : Inhabited ConnectOutcome := ⟨.ok⟩

instance : Inhabited ManagerState := ⟨initState⟩

instance : Inhabited ConnLog := ⟨{}⟩

instance : Inhabited LoadResult := ⟨.failure []⟩

/-- Builds a catalog tool with an embedding present, for the concrete
instances below. -/
def mkTool (nm orig uid : String) : ToolMetadata :=
  { name := pstr nm, original_name := pstr orig, description := [],
    input_schema := { type := pstr "object" }, upstream_id := pstr uid,
    embedding := some [1] }

/-- Schema declaring one parameter of JSON type `integer`. -/
def c4IntSchema : JSONSchema :=
  { type := pstr "object",
    properties := some [(pstr "n", JValue.jobj [(pstr "type", JValue.jstr (pstr "integer"))])] }

/-- Schema declaring one parameter of JSON type `number`. -/
def c4NumSchema : JSONSchema :=
  { type := pstr "object",
    properties := some [(pstr "n", JValue.jobj [(pstr "type", JValue.jstr (pstr "number"))])] }

/-- Schema with no `properties` but a non-empty `required` list. -/
def c10Schema : JSONSchema :=
  { type := pstr "object", properties := none, required := some [pstr "y"] }

/-- Configuration with a single upstream `u1` whose semantic prefix `p`
differs from its canonical id. -/
def cfgPrefixed : RouterConfig :=
  { mcp_servers := [(pstr "u1",
      { transport := pstr "stdio", command := some (pstr "cmd"),
        semanticPrefix := some (pstr "p") })] }

/-- Oracle for a fully successful load of one upstream tool named `t`. -/
def oracleOneTool : LoadOracle :=
  { connect := .ok,
    fetch := .ok [{ name := pstr "t", description := pstr "d",
                    inputSchema := { type := pstr "object" } }],
    embedOutcome := .ok (),
    embedVec := fun _ => [1] }

/-- Oracle whose connect attempt fails outright. -/
def oracleConnectFails : LoadOracle :=
  { oracleOneTool with connect := .failed (pstr "boom") }

instance (s : PyStr) : Decidable (allAscii s) :=
  decidable_of_iff (∀ c ∈ s, c.toNat < 128) Iff.rfl

/-- Well-formedness of a grouped catalog: every group is non-empty and
holds only tools of its key upstream, and the keys are distinct. -/
def GoodGroups (g : List (PyStr × List ToolMetadata)) : Prop :=
  (∀ p ∈ g, p.2 ≠ [] ∧ ∀ t ∈ p.2, t.upstream_id = p.1) ∧ (g.map Prod.fst).Nodup

lemma ne_nil_isEmpty_false {α : Type} {l : List α} (h : l ≠ []) : l.isEmpty = false := by
  cases l with
  | nil => exact absurd rfl h
  | cons a as => rfl

lemma splitOnFirstDot_append (p t : PyStr) (h : '.' ∉ p) :
    splitOnFirstDot (p ++ '.' :: t) = some (p, t) := by
  induction p with
  | nil => simp [splitOnFirstDot]
  | cons c cs ih =>
    have hc : ¬ (c = '.') := fun e => h (e ▸ List.mem_cons_self c cs)
    have hcs : '.' ∉ cs := fun hm => h (List.mem_cons_of_mem _ hm)
    simp [splitOnFirstDot, hc, ih hcs]

/-- C9: parsing a generated namespaced name returns the original prefix
and tool name, for every upstream id, tool name and configuration whose
parts are valid in the sense of the data-model invariant: the effective
prefix is non-empty, does not strip to whitespace and contains no dot,
and the tool name is non-empty and does not strip to dots and
whitespace. -/
theorem c9_namespace_round_trip (u t : PyStr) (cfg : UpstreamConfig)
    (hp1 : specPrefixOf u cfg ≠ [])
    (hp2 : trimWs pyIsSpace (specPrefixOf u cfg) ≠ [])
    (hp3 : '.' ∉ specPrefixOf u cfg)
    (ht1 : t ≠ [])
    (ht2 : trimWs pyIsSpace t ≠ [])
    (ht3 : (trimWs pyIsSpace t).filter (fun c => !(c == '.')) ≠ []) :
    parse_tool_namespace (generate_tool_namespace u t cfg) =
      some (specPrefixOf u cfg, t) := by
  have hpre : namespacePrefixOf u cfg = specPrefixOf u cfg := by
    unfold namespacePrefixOf specPrefixOf
    cases hsp : cfg.semanticPrefix with
    | none => rfl
    | some p =>
      have : p ≠ [] := by
        intro e
        apply hp1
        unfold specPrefixOf
        rw [hsp, e]
      simp [ne_nil_isEmpty_false this]
  unfold generate_tool_namespace
  rw [hpre]
  unfold parse_tool_namespace
  rw [splitOnFirstDot_append _ _ hp3]
  simp [ne_nil_isEmpty_false hp1, ne_nil_isEmpty_false hp2, ne_nil_isEmpty_false ht1,
    ne_nil_isEmpty_false ht2, ne_nil_isEmpty_false ht3]

/-- Witness for C9 at the concrete upstream `playwright` with semantic
prefix `browser` and tool `navigate`. -/
theorem c9_witness :
    parse_tool_namespace (generate_tool_namespace (pstr "playwright") (pstr "navigate")
      { transport := pstr "stdio", semanticPrefix := some (pstr "browser") }) =
      some (specPrefixOf (pstr "playwright")
        { transport := pstr "stdio", semanticPrefix := some (pstr "browser") },
        pstr "navigate") :=
  c9_namespace_round_trip (pstr "playwright") (pstr "navigate")
    { transport := pstr "stdio", semanticPrefix := some (pstr "browser") }
    (by decide) (by decide) (by decide) (by decide) (by decide) (by decide)

/-- C10: when a stored input schema has no `properties` field,
`validate_tool_parameters` accepts every arguments object — the
required-field, unknown-parameter and type checks are all skipped, even
when the schema lists required fields. -/
theorem c10_missing_properties_accepts_everything
    (params : List (PyStr × JValue)) (schema : JSONSchema)
    (h : schema.properties = none) :
    validate_tool_parameters params schema = .ok () := by
  unfold validate_tool_parameters
  rw [h]

/-- Witness for C10: a schema that requires `y` but has no properties
accepts an arguments object that supplies only the unknown field `x`. -/
theorem c10_witness :
    c10Schema.required = some [pstr "y"] ∧
    validate_tool_parameters [(pstr "x", JValue.jint 1)] c10Schema = .ok () :=
  ⟨rfl, c10_missing_properties_accepts_everything [(pstr "x", JValue.jint 1)] c10Schema rfl⟩

/-- C4: contrary to the claim, the code accepts a boolean argument for a
parameter declared `integer` and for one declared `number`:
`isinstance` in `_validate_type` treats Python bools as ints, so
`validate_tool_parameters` returns without raising. -/
theorem c4_bool_accepted_as_integer_and_number :
    validate_tool_parameters [(pstr "n", JValue.jbool true)] c4IntSchema = Except.ok () ∧
    validate_tool_parameters [(pstr "n", JValue.jbool false)] c4NumSchema = Except.ok () :=
  ⟨rfl, rfl⟩

/-- C2: contrary to the claim, a batch that contains two tools with the
same namespaced name (not yet present in the catalog) passes the
duplicate check — which compares only against pre-existing names — and
the add succeeds, leaving a catalog in which `namespaced_name` is no
longer unique. -/
theorem c2_intra_batch_duplicate_breaks_uniqueness :
    add_tools [] [mkTool "a.x" "x" "a", mkTool "a.x" "x" "a"] =
      Except.ok [mkTool "a.x" "x" "a", mkTool "a.x" "x" "a"] ∧
    ¬ (List.map ToolMetadata.name [mkTool "a.x" "x" "a", mkTool "a.x" "x" "a"]).Nodup :=
  ⟨rfl, by decide⟩

/-- C1: contrary to the claim, after loading upstream `u1` (semantic
prefix `p`) and successfully unloading it, the upstream is gone from
`loaded_upstreams` but its tool `p.t` is still in the search-engine
catalog, because `unload_upstream` keys `remove_tools` on the canonical
id `u1` while the stored names start with `p.`. -/
theorem c1_unload_leaves_semantic_prefix_tools :
    (load_upstream cfgPrefixed oracleOneTool (pstr "u1") initState).1 =
      LoadResult.success (pstr "u1") 1 ∧
    (unload_upstream cfgPrefixed (pstr "u1")
      (load_upstream cfgPrefixed oracleOneTool (pstr "u1") initState).2.1).1 =
      Except.ok (pstr "u1") ∧
    (unload_upstream cfgPrefixed (pstr "u1")
      (load_upstream cfgPrefixed oracleOneTool (pstr "u1") initState).2.1).2.loaded_upstreams
      = [] ∧
    ((unload_upstream cfgPrefixed (pstr "u1")
      (load_upstream cfgPrefixed oracleOneTool (pstr "u1") initState).2.1).2.engineTools.map
        ToolMetadata.name) = [pstr "p.t"] :=
  ⟨rfl, rfl, rfl, rfl⟩

/-- C3: `load_upstream` is atomic on failure — whenever it returns a
failure result, the manager state (loaded upstreams, mirrored tool
list, engine catalog) is exactly the state before the call, and if a
connection had reached the ready state during the attempt, it was
disconnected. -/
theorem c3_load_upstream_failure_is_atomic (cfg : RouterConfig) (o : LoadOracle)
    (name : PyStr) (st : ManagerState) (e : PyStr)
    (h : (load_upstream cfg o name st).1 = LoadResult.failure e) :
    (load_upstream cfg o name st).2.1 = st ∧
    ((load_upstream cfg o name st).2.2.opened = true →
      (load_upstream cfg o name st).2.2.disconnected = true) := by
  unfold load_upstream at h ⊢
  repeat' split at h
  all_goals simp_all

/-- Witness for C3: a connect failure on upstream `u1` from the initial
state returns a failure, leaves the state untouched, and opened no
connection. -/
theorem c3_witness :
    (load_upstream cfgPrefixed oracleConnectFails (pstr "u1") initState).1 =
      LoadResult.failure (pstr "Connection failed: " ++ pstr "boom") ∧
    (load_upstream cfgPrefixed oracleConnectFails (pstr "u1") initState).2.1 = initState ∧
    ((load_upstream cfgPrefixed oracleConnectFails (pstr "u1") initState).2.2.opened = true →
      (load_upstream cfgPrefixed oracleConnectFails (pstr "u1") initState).2.2.disconnected
        = true) :=
  ⟨rfl,
    (c3_load_upstream_failure_is_atomic cfgPrefixed oracleConnectFails (pstr "u1")
      initState (pstr "Connection failed: " ++ pstr "boom") rfl).1,
    (c3_load_upstream_failure_is_atomic cfgPrefixed oracleConnectFails (pstr "u1")
      initState (pstr "Connection failed: " ++ pstr "boom") rfl).2⟩

lemma contains_iff_mem {l : List PyStr} {a : PyStr} : l.contains a = true ↔ a ∈ l := by
  simp [List.contains, List.elem_eq_mem]

lemma countUpstreamTools_append (a b : List ToolMetadata) (u : PyStr) :
    countUpstreamTools (a ++ b) u = countUpstreamTools a u + countUpstreamTools b u := by
  simp [countUpstreamTools, List.filter_append]

lemma countUpstreamTools_eq_zero {ts : List ToolMetadata} {u : PyStr}
    (h : ∀ t ∈ ts, t.upstream_id ≠ u) : countUpstreamTools ts u = 0 := by
  unfold countUpstreamTools
  rw [List.length_eq_zero, List.filter_eq_nil_iff]
  intro t ht
  simpa using h t ht

lemma countUpstreamTools_eq_length {ts : List ToolMetadata} {u : PyStr}
    (h : ∀ t ∈ ts, t.upstream_id = u) : countUpstreamTools ts u = ts.length := by
  unfold countUpstreamTools
  rw [List.filter_eq_self.mpr]
  intro t ht
  simpa using h t ht

lemma countUpstreamTools_filter_le (q : ToolMetadata → Bool) (ts : List ToolMetadata)
    (u : PyStr) : countUpstreamTools (ts.filter q) u ≤ countUpstreamTools ts u :=
  ((List.Sublist.filter _ (List.filter_sublist ts))).length_le

lemma mem_embedToolsAux {vec : Nat → List ℚ} :
    ∀ {i : Nat} {ts : List ToolMetadata} {t : ToolMetadata},
      t ∈ embedToolsAux vec i ts → ∃ t0 ∈ ts, t.upstream_id = t0.upstream_id
  | _, [], t, h => absurd h (List.not_mem_nil t)
  | i, t0 :: rest, t, h => by
    rcases List.mem_cons.mp h with he | hm
    · exact ⟨t0, List.mem_cons_self _ _, by rw [he]⟩
    · rcases mem_embedToolsAux hm with ⟨t1, ht1, he1⟩
      exact ⟨t1, List.mem_cons_of_mem _ ht1, he1⟩

lemma length_embedToolsAux (vec : Nat → List ℚ) :
    ∀ (i : Nat) (ts : List ToolMetadata), (embedToolsAux vec i ts).length = ts.length
  | _, [] => rfl
  | i, _ :: rest => by
    simp [embedToolsAux, length_embedToolsAux vec (i + 1) rest]

lemma fetchToolsConvert_uid (c : PyStr) (ucfg : UpstreamConfig) (raw : List RawTool) :
    ∀ t ∈ fetchToolsConvert c ucfg raw, t.upstream_id = c := by
  intro t ht
  rcases List.mem_map.mp ht with ⟨r, _, he⟩
  rw [← he]

lemma loadBatch_uid (o : LoadOracle) (c : PyStr) (ucfg : UpstreamConfig)
    (raw : List RawTool) :
    ∀ t ∈ embedTools o.embedVec (fetchToolsConvert c ucfg raw), t.upstream_id = c := by
  intro t ht
  rcases mem_embedToolsAux ht with ⟨t0, ht0, he⟩
  rw [he]
  exact fetchToolsConvert_uid c ucfg raw t0 ht0

lemma load_upstream_state_cases (cfg : RouterConfig) (o : LoadOracle) (name : PyStr)
    (st : ManagerState) :
    (load_upstream cfg o name st).2.1 = st ∨
    ∃ c ucfg raw eng2,
      (load_upstream cfg o name st).2.1 =
        { loaded_upstreams := st.loaded_upstreams ++ [c]
          all_tools := st.all_tools ++ embedTools o.embedVec (fetchToolsConvert c ucfg raw)
          engineTools := eng2 } ∧
      resolve cfg name = Except.ok c ∧
      st.loaded_upstreams.contains c = false ∧
      o.fetch = Except.ok raw ∧
      cfg.mcp_servers.lookup c = some ucfg ∧
      add_tools st.engineTools (embedTools o.embedVec (fetchToolsConvert c ucfg raw))
        = Except.ok eng2 := by
  unfold load_upstream
  repeat' split
  all_goals try (left; rfl)
  right
  exact ⟨_, _, _, _, rfl, by assumption, by simp_all, by assumption, by assumption,
    by assumption⟩

lemma unload_upstream_state_cases (cfg : RouterConfig) (name : PyStr) (st : ManagerState) :
    (unload_upstream cfg name st).2 = st ∨
    ∃ c eng2,
      (unload_upstream cfg name st).2 =
        { loaded_upstreams := st.loaded_upstreams.filter (fun u => !(u == c))
          all_tools := st.all_tools.filter (fun t => !(t.upstream_id == c))
          engineTools := eng2 } ∧
      resolve cfg name = Except.ok c ∧
      remove_tools st.engineTools c = Except.ok eng2 := by
  unfold unload_upstream
  repeat' split
  all_goals try (left; rfl)
  right
  exact ⟨_, _, rfl, by assumption, by assumption⟩

/-- Reachable-state invariant: an upstream that is not in
`loaded_upstreams` owns no tool in the mirrored `all_tools` list
(`all_tools` is extended only on load success and purged by upstream id
on unload). -/
lemma reachable_unloaded_count_zero {cfg : RouterConfig} {s : ManagerState}
    (h : Reachable cfg s) :
    ∀ u, s.loaded_upstreams.contains u = false → countUpstreamTools s.all_tools u = 0 := by
  induction h with
  | init => intro u _; rfl
  | load o name hr ih =>
    rename_i s0
    intro u hu
    rcases load_upstream_state_cases cfg o name s0 with heq |
      ⟨c, ucfg, raw, eng2, heq, hres, hc, hf, hlk, hadd⟩
    · rw [heq] at hu ⊢
      exact ih u hu
    · rw [heq] at hu ⊢
      have hu2 : (s0.loaded_upstreams ++ [c]).contains u = false := hu
      have hmem : u ∉ s0.loaded_upstreams ++ [c] := by
        intro hm
        rw [contains_iff_mem.mpr hm] at hu2
        cases hu2
      have hu1 : s0.loaded_upstreams.contains u = false := by
        cases hcc : s0.loaded_upstreams.contains u
        · rfl
        · exact absurd (List.mem_append_left _ (contains_iff_mem.mp hcc)) hmem
      have hune : u ≠ c := by
        intro he
        exact hmem (List.mem_append_right _ (he ▸ List.mem_singleton_self c))
      have hbatch :
          countUpstreamTools (embedTools o.embedVec (fetchToolsConvert c ucfg raw)) u = 0 :=
        countUpstreamTools_eq_zero (fun t ht => by
          rw [loadBatch_uid o c ucfg raw t ht]
          exact Ne.symm hune)
      show countUpstreamTools (s0.all_tools ++ _) u = 0
      rw [countUpstreamTools_append, ih u hu1, hbatch]
  | unload name hr ih =>
    rename_i s0
    intro u hu
    rcases unload_upstream_state_cases cfg name s0 with heq | ⟨c, eng2, heq, hres, hrm⟩
    · rw [heq] at hu ⊢
      exact ih u hu
    · rw [heq] at hu ⊢
      by_cases huc : u = c
      · subst huc
        refine countUpstreamTools_eq_zero (fun t ht => ?_)
        have := (List.mem_filter.mp ht).2
        simp only [Bool.not_eq_true] at this
        intro he
        rw [he] at this
        simp at this
      · have hu2 : (s0.loaded_upstreams.filter (fun v => !(v == c))).contains u = false := hu
        have hu1 : s0.loaded_upstreams.contains u = false := by
          cases hcc : s0.loaded_upstreams.contains u
          · rfl
          · have humem : u ∈ s0.loaded_upstreams.filter (fun v => !(v == c)) :=
              List.mem_filter.mpr ⟨contains_iff_mem.mp hcc, by simp [huc]⟩
            rw [contains_iff_mem.mpr humem] at hu2
            cases hu2
        show countUpstreamTools (s0.all_tools.filter (fun t => !(t.upstream_id == c))) u = 0
        have hle := countUpstreamTools_filter_le
          (fun t => !(t.upstream_id == c)) s0.all_tools u
        rw [ih u hu1] at hle
        exact Nat.le_zero.mp hle

lemma load_upstream_already_loaded (cfg : RouterConfig) (o : LoadOracle) (name c : PyStr)
    (st : ManagerState)
    (hres : resolve cfg name = Except.ok c)
    (hcont : st.loaded_upstreams.contains c = true) :
    load_upstream cfg o name st =
      (LoadResult.success c (countUpstreamTools st.all_tools c), st, {}) := by
  simp [load_upstream, hres, hcont]
  intro hmem
  exact absurd (contains_iff_mem.mp hcont) hmem

lemma load_upstream_success_cases (cfg : RouterConfig) (o : LoadOracle) (name u : PyStr)
    (n : Nat) (st : ManagerState)
    (h : (load_upstream cfg o name st).1 = LoadResult.success u n) :
    resolve cfg name = Except.ok u ∧
    ((st.loaded_upstreams.contains u = true ∧
        n = countUpstreamTools st.all_tools u ∧
        (load_upstream cfg o name st).2.1 = st) ∨
      (st.loaded_upstreams.contains u = false ∧
        ∃ ucfg raw eng2,
          n = (embedTools o.embedVec (fetchToolsConvert u ucfg raw)).length ∧
          (load_upstream cfg o name st).2.1 =
            { loaded_upstreams := st.loaded_upstreams ++ [u]
              all_tools := st.all_tools ++ embedTools o.embedVec (fetchToolsConvert u ucfg raw)
              engineTools := eng2 })) := by
  unfold load_upstream at h
  repeat' split at h
  all_goals simp at h
  · rename_i x canonical hres hcont
    obtain ⟨e1, e2⟩ := h
    subst e1
    subst e2
    exact ⟨hres, Or.inl ⟨hcont, rfl,
      by simp [load_upstream, hres, contains_iff_mem.mp hcont]⟩⟩
  · rename_i x5 canonical hres hcont x4 ucfg hlk x3 hconn x2 raw hfetch x1 a hemb x0 eng2 hadd
    obtain ⟨e1, e2⟩ := h
    subst e1
    subst e2
    refine ⟨hres, Or.inr ⟨(Bool.not_eq_true _) ▸ hcont, ucfg, raw, eng2, rfl, ?_⟩⟩
    simp [load_upstream, hres, hlk, hconn, hfetch, hemb, hadd,
      show canonical ∉ st.loaded_upstreams from fun hm => hcont (contains_iff_mem.mpr hm)]

/-- C8: `load_upstream` is idempotent on a loaded upstream — from any
reachable state, after a first call that succeeds with tool count `n`,
a second call for the same name succeeds with the same `n`, opens no
connection (the empty connection log), and leaves `loaded_upstreams`,
`all_tools` and the engine catalog exactly as the first call left
them. -/
theorem c8_load_upstream_idempotent (cfg : RouterConfig) (o1 o2 : LoadOracle)
    (name u : PyStr) (n : Nat) (st : ManagerState)
    (hreach : Reachable cfg st)
    (h1 : (load_upstream cfg o1 name st).1 = LoadResult.success u n) :
    load_upstream cfg o2 name (load_upstream cfg o1 name st).2.1 =
      (LoadResult.success u n, (load_upstream cfg o1 name st).2.1, ({} : ConnLog)) := by
  obtain ⟨hres, hcases⟩ := load_upstream_success_cases cfg o1 name u n st h1
  rcases hcases with ⟨hcont, hn, hst⟩ | ⟨hcont, ucfg, raw, eng2, hn, hst⟩
  · rw [hst, load_upstream_already_loaded cfg o2 name u st hres hcont, hn]
  · rw [hst]
    have hcont2 : (st.loaded_upstreams ++ [u]).contains u = true :=
      contains_iff_mem.mpr (List.mem_append_right _ (List.mem_singleton_self u))
    rw [load_upstream_already_loaded cfg o2 name u _ hres hcont2]
    have hcount : countUpstreamTools
        (st.all_tools ++ embedTools o1.embedVec (fetchToolsConvert u ucfg raw)) u = n := by
      rw [countUpstreamTools_append, reachable_unloaded_count_zero hreach u hcont,
        countUpstreamTools_eq_length (loadBatch_uid o1 u ucfg raw), hn]
      exact Nat.zero_add _
    rw [show countUpstreamTools
        (({ loaded_upstreams := st.loaded_upstreams ++ [u]
            all_tools := st.all_tools ++ embedTools o1.embedVec (fetchToolsConvert u ucfg raw)
            engineTools := eng2 } : ManagerState)).all_tools u =
        countUpstreamTools
          (st.all_tools ++ embedTools o1.embedVec (fetchToolsConvert u ucfg raw)) u from rfl,
      hcount]

/-- Witness for C8: loading `u1` twice in a row from the initial state;
the second call returns the same count 1, the same state, and the empty
connection log. -/
theorem c8_witness :
    (load_upstream cfgPrefixed oracleOneTool (pstr "u1") initState).1 =
      LoadResult.success (pstr "u1") 1 ∧
    load_upstream cfgPrefixed oracleOneTool (pstr "u1")
        (load_upstream cfgPrefixed oracleOneTool (pstr "u1") initState).2.1 =
      (LoadResult.success (pstr "u1") 1,
        (load_upstream cfgPrefixed oracleOneTool (pstr "u1") initState).2.1,
        ({} : ConnLog)) :=
  ⟨rfl, c8_load_upstream_idempotent cfgPrefixed oracleOneTool oracleOneTool (pstr "u1")
    (pstr "u1") 1 initState Reachable.init rfl⟩

set_option maxRecDepth 4000 in
lemma c5_pointwise : ∀ n : Nat, n < 128 →
    (pyIsSpace (if sanitizeKeep (Char.ofNat n) then Char.ofNat n else ' ') =
      ((if specKeep (Char.ofNat n) then Char.ofNat n else ' ') == ' ')) ∧
    (pyIsSpace (if sanitizeKeep (Char.ofNat n) then Char.ofNat n else ' ') = false →
      (if sanitizeKeep (Char.ofNat n) then Char.ofNat n else ' ') =
        (if specKeep (Char.ofNat n) then Char.ofNat n else ' ')) := by decide

lemma c5_pointwise_char (c : Char) (h : c.toNat < 128) :
    (pyIsSpace (if sanitizeKeep c then c else ' ') =
      ((if specKeep c then c else ' ') == ' ')) ∧
    (pyIsSpace (if sanitizeKeep c then c else ' ') = false →
      (if sanitizeKeep c then c else ' ') = (if specKeep c then c else ' ')) := by
  have := c5_pointwise c.toNat h
  rwa [Char.ofNat_toNat] at this

lemma collapseAux_cons (ws : Char → Bool) (c : Char) (rest : PyStr) (prev : Bool) :
    collapseAux ws (c :: rest) prev =
      if ws c then (if prev then collapseAux ws rest true else ' ' :: collapseAux ws rest true)
      else c :: collapseAux ws rest false := rfl

lemma collapse_agree : ∀ (s : PyStr), (∀ c ∈ s, c.toNat < 128) → ∀ prev : Bool,
    collapseAux pyIsSpace (replaceSpecial s) prev =
      collapseAux (fun c => c == ' ') (s.map (fun c => if specKeep c then c else ' ')) prev := by
  intro s
  induction s with
  | nil => intro _ _; rfl
  | cons c cs ih =>
    intro hall prev
    have hc := c5_pointwise_char c (hall c (List.mem_cons_self c cs))
    have hcs : ∀ x ∈ cs, x.toNat < 128 := fun x hx => hall x (List.mem_cons_of_mem _ hx)
    show collapseAux pyIsSpace
        ((if sanitizeKeep c then c else ' ') :: replaceSpecial cs) prev =
      collapseAux (fun x => x == ' ')
        ((if specKeep c then c else ' ') :: cs.map (fun x => if specKeep x then x else ' ')) prev
    rw [collapseAux_cons, collapseAux_cons]
    cases hws : pyIsSpace (if sanitizeKeep c then c else ' ') with
    | true =>
      have hws2 : ((if specKeep c then c else ' ') == ' ') = true := by rw [← hc.1, hws]
      rw [hws2, if_pos rfl, if_pos rfl]
      cases prev with
      | true =>
        rw [if_pos rfl, if_pos rfl]
        exact ih hcs true
      | false =>
        rw [if_neg (show ¬(false = true) from fun h => Bool.noConfusion h),
          if_neg (show ¬(false = true) from fun h => Bool.noConfusion h), ih hcs true]
    | false =>
      have hws2 : ((if specKeep c then c else ' ') == ' ') = false := by rw [← hc.1, hws]
      rw [hws2, if_neg (show ¬(false = true) from fun h => Bool.noConfusion h),
        if_neg (show ¬(false = true) from fun h => Bool.noConfusion h),
        hc.2 hws, ih hcs false]

lemma collapseAux_mem (ws : Char → Bool) : ∀ (s : PyStr) (prev : Bool) (c : Char),
    c ∈ collapseAux ws s prev → c = ' ' ∨ c ∈ s := by
  intro s
  induction s with
  | nil => intro prev c h; cases h
  | cons d ds ih =>
    intro prev c h
    rw [collapseAux_cons] at h
    by_cases hd : ws d = true
    · rw [if_pos hd] at h
      cases prev with
      | true =>
        rw [if_pos rfl] at h
        rcases ih true c h with h1 | h2
        · exact Or.inl h1
        · exact Or.inr (List.mem_cons_of_mem _ h2)
      | false =>
        rw [if_neg (show ¬(false = true) from fun hx => Bool.noConfusion hx)] at h
        rcases List.mem_cons.mp h with h1 | h2
        · exact Or.inl h1
        · rcases ih true c h2 with h3 | h4
          · exact Or.inl h3
          · exact Or.inr (List.mem_cons_of_mem _ h4)
    · rw [if_neg hd] at h
      rcases List.mem_cons.mp h with h1 | h2
      · exact Or.inr (h1 ▸ List.mem_cons_self d ds)
      · rcases ih false c h2 with h3 | h4
        · exact Or.inl h3
        · exact Or.inr (List.mem_cons_of_mem _ h4)

set_option maxRecDepth 4000 in
lemma c5_specmap_ws : ∀ n : Nat, n < 128 →
    pyIsSpace (if specKeep (Char.ofNat n) then Char.ofNat n else ' ') =
      ((if specKeep (Char.ofNat n) then Char.ofNat n else ' ') == ' ') := by decide

lemma dropWhile_pred_congr {p q : Char → Bool} :
    ∀ (l : PyStr), (∀ c ∈ l, p c = q c) → l.dropWhile p = l.dropWhile q := by
  intro l
  induction l with
  | nil => intro _; rfl
  | cons c cs ih =>
    intro h
    show List.dropWhile p (c :: cs) = List.dropWhile q (c :: cs)
    rw [List.dropWhile_cons, List.dropWhile_cons, ← h c (List.mem_cons_self c cs)]
    cases hp : p c
    · rfl
    · exact ih (fun x hx => h x (List.mem_cons_of_mem _ hx))

lemma trim_pred_congr {p q : Char → Bool} (l : PyStr) (h : ∀ c ∈ l, p c = q c) :
    trimWs p l = trimWs q l := by
  unfold trimWs
  rw [dropWhile_pred_congr l h]
  rw [dropWhile_pred_congr ((l.dropWhile q).reverse)]
  intro c hc
  exact h c ((List.dropWhile_sublist q).mem (List.mem_reverse.mp hc))

lemma sanitize_ascii (s : PyStr) (h : allAscii s) : sanitize_query s = sanitizeSpec s := by
  unfold sanitize_query sanitizeSpec collapseWs
  rw [collapse_agree s h false]
  apply trim_pred_congr
  intro c hc
  rcases collapseAux_mem _ _ _ c hc with h1 | h2
  · subst h1; rfl
  · rcases List.mem_map.mp h2 with ⟨c0, hc0, he⟩
    have h128 : c0.toNat < 128 := h c0 hc0
    have hws := c5_specmap_ws c0.toNat h128
    rw [Char.ofNat_toNat] at hws
    rw [he] at hws
    exact hws

/-- C5 (amended): on ASCII input the sanitizer behaves exactly as the
specification words it — replace characters outside `[A-Za-z0-9_ .,!?-]`
with spaces, collapse whitespace runs, trim — and context handling
matches the amended description: non-empty context strings are
sanitized, joined with single spaces, and appended after one space when
the join is non-empty.  Off ASCII the code keeps Unicode word
characters (see the counterexample). -/
theorem c5_sanitize_matches_spec_on_ascii :
    (∀ s : PyStr, allAscii s → sanitize_query s = sanitizeSpec s) ∧
    (∀ (q : PyStr) (ctx : List PyStr), allAscii q → (∀ x ∈ ctx, allAscii x) →
      combine_query_and_context q (some ctx) = specCombine q ctx) := by
  refine ⟨sanitize_ascii, ?_⟩
  intro q ctx hq hctx
  have hmap : (ctx.filter (fun c => !c.isEmpty)).map sanitize_query =
      (ctx.filter (fun c => !c.isEmpty)).map sanitizeSpec := by
    apply List.map_congr_left
    intro x hx
    exact sanitize_ascii x (hctx x (List.mem_filter.mp hx).1)
  simp only [combine_query_and_context, specCombine]
  rw [sanitize_ascii q hq, hmap]

/-- C5 counterexample: the non-ASCII letter at code point 233 (a
Unicode word character) is kept by `sanitize_query`, while the claim
requires every character outside the ASCII class — in particular every
non-ASCII character — to be replaced by a space, which would leave the
empty string. -/
theorem c5_counterexample_eacute :
    128 ≤ (Char.ofNat 233).toNat ∧
    sanitize_query [Char.ofNat 233] = [Char.ofNat 233] ∧
    sanitizeSpec [Char.ofNat 233] = [] ∧
    sanitize_query [Char.ofNat 233] ≠ sanitizeSpec [Char.ofNat 233] := by decide

/-- Witness for C5 at concrete ASCII inputs with punctuation, a
replaced character, runs of spaces, and an empty context entry. -/
theorem c5_witness :
    allAscii (pstr "Hello,   w@rld! ") ∧
    sanitize_query (pstr "Hello,   w@rld! ") = sanitizeSpec (pstr "Hello,   w@rld! ") ∧
    combine_query_and_context (pstr "a@b") (some [pstr "ctx!", pstr ""]) =
      specCombine (pstr "a@b") [pstr "ctx!", pstr ""] :=
  ⟨by decide, c5_sanitize_matches_spec_on_ascii.1 _ (by decide),
    c5_sanitize_matches_spec_on_ascii.2 _ _ (by decide) (by decide)⟩

lemma getEmbeddings_ok : ∀ (ts : List ToolMetadata), (∀ t ∈ ts, t.embedding.isSome) →
    ∃ embs, getEmbeddings ts = Except.ok embs ∧ embs.length = ts.length := by
  intro ts
  induction ts with
  | nil => intro _; exact ⟨[], rfl, rfl⟩
  | cons t rest ih =>
    intro h
    obtain ⟨e, he⟩ := Option.isSome_iff_exists.mp (h t (List.mem_cons_self t rest))
    obtain ⟨embs, hge, hlen⟩ := ih (fun x hx => h x (List.mem_cons_of_mem _ hx))
    refine ⟨e :: embs, ?_, by simp [hlen]⟩
    unfold getEmbeddings
    rw [he, hge]
    rfl

/-- C7 (amended): for a non-empty catalog whose tools all carry
embeddings, a non-empty non-whitespace query whose sanitized
combination with the context is also non-empty and non-whitespace, and
k at least 1, `search_tools` returns exactly min(k, catalog size)
results sorted by descending similarity — for every embedding model and
every similarity function; and on an empty catalog every search fails
with an error.  (Without the sanitized-combination condition the
embedding step rejects the text; see the counterexample.) -/
theorem c7_search_topk_sorted :
    (∀ (encode : PyStr → List ℚ) (sim : List ℚ → List ℚ → ℚ)
        (tools : List ToolMetadata) (query : PyStr) (context : Option (List PyStr))
        (top_k : Nat),
      tools ≠ [] →
      (∀ t ∈ tools, (ToolMetadata.embedding t).isSome) →
      query ≠ [] → trimWs pyIsSpace query ≠ [] →
      combine_query_and_context query context ≠ [] →
      trimWs pyIsSpace (combine_query_and_context query context) ≠ [] →
      1 ≤ top_k →
      ∃ l, search_tools encode sim tools query context top_k = Except.ok l ∧
        l.length = min top_k tools.length ∧
        List.Sorted bySimilarityDesc l) ∧
    (∀ (encode : PyStr → List ℚ) (sim : List ℚ → List ℚ → ℚ) (query : PyStr)
        (context : Option (List PyStr)) (top_k : Nat),
      ∃ msg, search_tools encode sim [] query context top_k = Except.error msg) := by
  constructor
  · intro encode sim tools query context top_k htool hemb hq1 hq2 hc1 hc2 hk
    have hq : (query.isEmpty || (trimWs pyIsSpace query).isEmpty) = false := by
      rw [ne_nil_isEmpty_false hq1, ne_nil_isEmpty_false hq2]
      rfl
    have htoolE : tools.isEmpty = false := ne_nil_isEmpty_false htool
    have hgen : generate_embedding encode (combine_query_and_context query context) =
        Except.ok (encode (combine_query_and_context query context)) := by
      unfold generate_embedding
      rw [ne_nil_isEmpty_false hc1, ne_nil_isEmpty_false hc2]
      rfl
    obtain ⟨embs, hge, hlen⟩ := getEmbeddings_ok tools hemb
    set qe := encode (combine_query_and_context query context) with hqe
    set results := List.zipWith (fun t s => SearchResult.mk t s) tools (embs.map (sim qe))
      with hres
    have hreslen : results.length = tools.length := by
      rw [hres, List.length_zipWith, List.length_map, hlen, min_self]
    have hsortlen : (List.insertionSort bySimilarityDesc results).length = tools.length := by
      rw [(List.perm_insertionSort bySimilarityDesc results).length_eq, hreslen]
    have htake : ((List.insertionSort bySimilarityDesc results).take top_k).length =
        min top_k tools.length := by
      rw [List.length_take, hsortlen]
    have htop : (((List.insertionSort bySimilarityDesc results).take top_k).isEmpty) = false := by
      apply ne_nil_isEmpty_false
      intro hnil
      have : min top_k tools.length = 0 := by rw [← htake, hnil]; rfl
      rcases Nat.min_eq_zero_iff.mp this with h0 | h0
      · omega
      · exact htool (List.length_eq_zero.mp h0)
    refine ⟨(List.insertionSort bySimilarityDesc results).take top_k, ?_, htake, ?_⟩
    · unfold search_tools
      rw [hq, htoolE]
      simp only [Bool.false_eq_true, if_false]
      rw [hgen, hge]
      show (if ((List.insertionSort bySimilarityDesc results).take top_k).isEmpty = true
        then _ else _) = _
      rw [htop]
      simp only [Bool.false_eq_true, if_false]
    · exact List.Pairwise.sublist (List.take_sublist _ _)
        (List.sorted_insertionSort bySimilarityDesc results)
  · intro encode sim query context top_k
    unfold search_tools
    by_cases hq : (query.isEmpty || (trimWs pyIsSpace query).isEmpty) = true
    · rw [if_pos hq]
      exact ⟨_, rfl⟩
    · rw [if_neg hq]
      exact ⟨_, rfl⟩

/-- C7 counterexample: the query of three at-signs is non-empty and
non-whitespace and the catalog is non-empty, yet the search returns an
error rather than min(k, catalog size) results, because sanitization
maps the query to the empty string and `generate_embedding` rejects
empty text. -/
theorem c7_counterexample_sanitized_empty_query :
    (pstr "@@@") ≠ [] ∧
    trimWs pyIsSpace (pstr "@@@") ≠ [] ∧
    1 ≤ ([mkTool "a.x" "x" "a"] : List ToolMetadata).length ∧
    search_tools (fun _ => [1]) (fun _ _ => 0) [mkTool "a.x" "x" "a"] (pstr "@@@") none 1
      = Except.error (pstr "Cannot generate embedding for empty text") :=
  ⟨by decide, by decide, by decide, rfl⟩

/-- Witness for C7 on a concrete two-tool catalog with k = 5, and the
empty-catalog failure case. -/
theorem c7_witness :
    (∃ l, search_tools (fun _ => [1]) (fun _ _ => 0)
        [mkTool "a.x" "x" "a", mkTool "b.y" "y" "b"] (pstr "navigate") none 5 =
        Except.ok l ∧ l.length = min 5 2 ∧ List.Sorted bySimilarityDesc l) ∧
    (∃ msg, search_tools (fun _ => [1]) (fun _ _ => 0) [] (pstr "navigate") none 5 =
      Except.error msg) :=
  ⟨c7_search_topk_sorted.1 (fun _ => [1]) (fun _ _ => 0)
      [mkTool "a.x" "x" "a", mkTool "b.y" "y" "b"] (pstr "navigate") none 5
      (List.cons_ne_nil _ _) (by decide) (by decide) (by decide) (by decide) (by decide)
      (by decide),
    c7_search_topk_sorted.2 (fun _ => [1]) (fun _ _ => 0) (pstr "navigate") none 5⟩

lemma mem_of_getElemQ {α : Type} {l : List α} {n : Nat} {a : α} (h : l[n]? = some a) :
    a ∈ l :=
  List.get?_mem ((List.get?_eq_getElem? l n).symm ▸ h)

lemma insertGrouped_keys (t : ToolMetadata) :
    ∀ g : List (PyStr × List ToolMetadata),
      ((insertGrouped t g).map Prod.fst = g.map Prod.fst ∧ t.upstream_id ∈ g.map Prod.fst) ∨
      (insertGrouped t g).map Prod.fst = g.map Prod.fst ++ [t.upstream_id] := by
  intro g
  induction g with
  | nil => exact Or.inr rfl
  | cons p rest ih =>
    obtain ⟨u, gl⟩ := p
    have hred : insertGrouped t ((u, gl) :: rest) =
        if u = t.upstream_id then (u, gl ++ [t]) :: rest
        else (u, gl) :: insertGrouped t rest := rfl
    rw [hred]
    by_cases hp : u = t.upstream_id
    · rw [if_pos hp]
      exact Or.inl ⟨rfl, by rw [← hp]; exact List.mem_cons_self _ _⟩
    · rw [if_neg hp]
      rcases ih with ⟨h1, h2⟩ | h1
      · exact Or.inl ⟨by rw [List.map_cons, List.map_cons, h1],
          List.mem_cons_of_mem _ h2⟩
      · refine Or.inr ?_
        rw [List.map_cons, List.map_cons, h1]
        rfl

lemma insertGrouped_good (t : ToolMetadata) :
    ∀ g : List (PyStr × List ToolMetadata), GoodGroups g → GoodGroups (insertGrouped t g) := by
  intro g
  induction g with
  | nil =>
    intro _
    exact ⟨fun p hp => by
      rcases List.mem_singleton.mp hp with rfl
      exact ⟨List.cons_ne_nil _ _, fun x hx => by
        rcases List.mem_singleton.mp hx with rfl; rfl⟩,
      List.nodup_singleton _⟩
  | cons p rest ih =>
    obtain ⟨u, gl⟩ := p
    intro ⟨hall, hnd⟩
    have hprest : GoodGroups rest :=
      ⟨fun q hq => hall q (List.mem_cons_of_mem _ hq), (List.nodup_cons.mp (by
        rw [List.map_cons] at hnd; exact hnd)).2⟩
    have hred : insertGrouped t ((u, gl) :: rest) =
        if u = t.upstream_id then (u, gl ++ [t]) :: rest
        else (u, gl) :: insertGrouped t rest := rfl
    rw [hred]
    by_cases hp : u = t.upstream_id
    · rw [if_pos hp]
      refine ⟨fun q hq => ?_, ?_⟩
      · rcases List.mem_cons.mp hq with rfl | hq2
        · refine ⟨by simp, fun x hx => ?_⟩
          rcases List.mem_append.mp hx with hx1 | hx2
          · exact (hall (u, gl) (List.mem_cons_self _ _)).2 x hx1
          · rcases List.mem_singleton.mp hx2 with rfl
            exact hp.symm
        · exact hall q (List.mem_cons_of_mem _ hq2)
      · rw [List.map_cons]
        rw [List.map_cons] at hnd
        exact hnd
    · rw [if_neg hp]
      have hg := ih hprest
      rw [List.map_cons] at hnd
      refine ⟨fun q hq => ?_, ?_⟩
      · rcases List.mem_cons.mp hq with rfl | hq2
        · exact hall _ (List.mem_cons_self _ _)
        · exact hg.1 q hq2
      · rw [List.map_cons, List.nodup_cons]
        refine ⟨?_, hg.2⟩
        intro hmem
        rcases insertGrouped_keys t rest with ⟨hk, _⟩ | hk
        · rw [hk] at hmem
          exact (List.nodup_cons.mp hnd).1 hmem
        · rw [hk] at hmem
          rcases List.mem_append.mp hmem with hm1 | hm2
          · exact (List.nodup_cons.mp hnd).1 hm1
          · exact hp (List.mem_singleton.mp hm2)

lemma groupByUpstream_aux_good :
    ∀ (ts : List ToolMetadata) (acc : List (PyStr × List ToolMetadata)), GoodGroups acc →
      GoodGroups (ts.foldl (fun acc t => insertGrouped t acc) acc) := by
  intro ts
  induction ts with
  | nil => intro acc h; exact h
  | cons t rest ih =>
    intro acc h
    exact ih (insertGrouped t acc) (insertGrouped_good t acc h)

lemma groupByUpstream_good (ts : List ToolMetadata) : GoodGroups (groupByUpstream ts) :=
  groupByUpstream_aux_good ts [] ⟨fun p hp => absurd hp (List.not_mem_nil p), List.nodup_nil⟩

lemma foldl_keys_persist :
    ∀ (ts : List ToolMetadata) (acc : List (PyStr × List ToolMetadata)) (k : PyStr),
      k ∈ acc.map Prod.fst →
      k ∈ ((ts.foldl (fun acc t => insertGrouped t acc) acc).map Prod.fst) := by
  intro ts
  induction ts with
  | nil => intro acc k hk; exact hk
  | cons r rest ih =>
    intro acc k hk
    apply ih
    rcases insertGrouped_keys r acc with ⟨h1, _⟩ | h1
    · rw [h1]; exact hk
    · rw [h1]; exact List.mem_append_left _ hk

lemma groupByUpstream_aux_keys :
    ∀ (ts : List ToolMetadata) (acc : List (PyStr × List ToolMetadata)),
      ∀ t ∈ ts, t.upstream_id ∈
        ((ts.foldl (fun acc t => insertGrouped t acc) acc).map Prod.fst) := by
  intro ts
  induction ts with
  | nil => intro acc t ht; cases ht
  | cons t0 rest ih =>
    intro acc t ht
    rcases List.mem_cons.mp ht with rfl | ht2
    · refine foldl_keys_persist rest (insertGrouped t acc) _ ?_
      rcases insertGrouped_keys t acc with ⟨hk, hm⟩ | hk
      · rw [hk]; exact hm
      · rw [hk]; exact List.mem_append_right _ (List.mem_singleton_self _)
    · exact ih (insertGrouped t0 acc) t ht2

lemma groupByUpstream_keys (ts : List ToolMetadata) :
    ∀ t ∈ ts, t.upstream_id ∈ ((groupByUpstream ts).map Prod.fst) :=
  groupByUpstream_aux_keys ts []

lemma sortedGroupsOf_good (tools : List ToolMetadata) : GoodGroups (sortedGroupsOf tools) := by
  obtain ⟨hall, hnd⟩ := groupByUpstream_good tools
  unfold sortedGroupsOf
  set mapped := (groupByUpstream tools).map
    (fun p => (p.1, List.insertionSort byOriginalName p.2)) with hm
  have hmk : mapped.map Prod.fst = (groupByUpstream tools).map Prod.fst := by
    rw [hm, List.map_map]
    rfl
  have hmg : GoodGroups mapped := by
    constructor
    · intro p hp
      rcases List.mem_map.mp hp with ⟨q, hq, he⟩
      obtain ⟨hne, huid⟩ := hall q hq
      rw [← he]
      constructor
      · intro hnil
        have hperm := List.perm_insertionSort byOriginalName q.2
        rw [show ((q.1, List.insertionSort byOriginalName q.2) : PyStr × List ToolMetadata).2
            = List.insertionSort byOriginalName q.2 from rfl] at hnil
        rw [hnil] at hperm
        exact hne (hperm.nil_eq).symm
      · intro x hx
        exact huid x ((List.perm_insertionSort byOriginalName q.2).subset hx)
    · rw [hmk]
      exact hnd
  constructor
  · intro p hp
    exact hmg.1 p ((List.perm_insertionSort byUpstreamId mapped).subset hp)
  · exact (((List.perm_insertionSort byUpstreamId mapped).map Prod.fst).nodup_iff).mpr hmg.2

lemma sortedGroupsOf_keys (tools : List ToolMetadata) :
    ∀ t ∈ tools, t.upstream_id ∈ ((sortedGroupsOf tools).map Prod.fst) := by
  intro t ht
  have h1 := groupByUpstream_keys tools t ht
  unfold sortedGroupsOf
  have hmk : (((groupByUpstream tools).map
      (fun p => (p.1, List.insertionSort byOriginalName p.2))).map Prod.fst) =
      (groupByUpstream tools).map Prod.fst := by
    rw [List.map_map]
    rfl
  rw [((List.perm_insertionSort byUpstreamId _).map Prod.fst).mem_iff, hmk]
  exact h1

lemma two_distinct_mem_length {α : Type} {l : List α} {a b : α}
    (ha : a ∈ l) (hb : b ∈ l) (hne : a ≠ b) : 2 ≤ l.length := by
  match l with
  | [] => cases ha
  | [x] =>
    rcases List.mem_singleton.mp ha with rfl
    rcases List.mem_singleton.mp hb with rfl
    exact absurd rfl hne
  | x :: y :: r => simp only [List.length_cons]; omega

lemma rrPass_extends (maxT : Nat) :
    ∀ (st : List (List ToolMetadata × Nat)) (acc : List ToolMetadata) (added : Bool),
      ∃ ext, (rrPass maxT acc st added).1 = acc ++ ext := by
  intro st
  induction st with
  | nil => intro acc added; exact ⟨[], (List.append_nil acc).symm⟩
  | cons p rest ih =>
    obtain ⟨g, taken⟩ := p
    intro acc added
    have hred : rrPass maxT acc ((g, taken) :: rest) added =
        if maxT ≤ acc.length then (acc, (g, taken) :: rest, added)
        else if taken < g.length then
          ((rrPass maxT (acc ++ [g.getD taken default]) rest true).1,
            (g, taken + 1) :: (rrPass maxT (acc ++ [g.getD taken default]) rest true).2.1,
            (rrPass maxT (acc ++ [g.getD taken default]) rest true).2.2)
        else
          ((rrPass maxT acc rest added).1,
            (g, taken) :: (rrPass maxT acc rest added).2.1,
            (rrPass maxT acc rest added).2.2) := rfl
    rw [hred]
    by_cases h1 : maxT ≤ acc.length
    · rw [if_pos h1]
      exact ⟨[], (List.append_nil acc).symm⟩
    · rw [if_neg h1]
      by_cases h2 : taken < g.length
      · rw [if_pos h2]
        obtain ⟨ext, hext⟩ := ih (acc ++ [g.getD taken default]) true
        exact ⟨[g.getD taken default] ++ ext, by rw [hext, List.append_assoc]⟩
      · rw [if_neg h2]
        exact ih acc added

lemma rrLoop_extends : ∀ (fuel maxT : Nat) (acc : List ToolMetadata)
    (st : List (List ToolMetadata × Nat)), ∃ ext, rrLoop fuel maxT acc st = acc ++ ext := by
  intro fuel
  induction fuel with
  | zero => intro maxT acc st; exact ⟨[], (List.append_nil acc).symm⟩
  | succ f ih =>
    intro maxT acc st
    have hred : rrLoop (f + 1) maxT acc st =
        if acc.length < maxT then
          (if (rrPass maxT acc st false).2.2 then
            rrLoop f maxT (rrPass maxT acc st false).1 (rrPass maxT acc st false).2.1
          else (rrPass maxT acc st false).1)
        else acc := rfl
    rw [hred]
    by_cases h1 : acc.length < maxT
    · rw [if_pos h1]
      obtain ⟨e1, he1⟩ := rrPass_extends maxT st acc false
      by_cases h2 : (rrPass maxT acc st false).2.2 = true
      · rw [if_pos h2]
        obtain ⟨e2, he2⟩ := ih maxT (rrPass maxT acc st false).1 (rrPass maxT acc st false).2.1
        refine ⟨e1 ++ e2, ?_⟩
        rw [he2, he1, List.append_assoc]
      · rw [if_neg h2]
        exact ⟨e1, he1⟩
    · rw [if_neg h1]
      exact ⟨[], (List.append_nil acc).symm⟩

lemma select_structure (tools : List ToolMetadata) (maxT : Nat)
    (h : tools.isEmpty = false) :
    ∃ ext, select_default_tool_subset tools maxT =
      ((initialOf tools maxT) ++ ext).take maxT := by
  unfold select_default_tool_subset
  rw [h, if_neg (show ¬(false = true) from fun hx => Bool.noConfusion hx)]
  by_cases h1 : (initialOf tools maxT).length < maxT
  · rw [if_pos h1]
    obtain ⟨ext, hext⟩ := rrLoop_extends (maxT + 1) maxT (initialOf tools maxT)
      ((sortedGroupsOf tools).map (fun p => (p.2, baseOf tools maxT)))
    exact ⟨ext, by rw [hext]⟩
  · rw [if_neg h1]
    exact ⟨[], by rw [List.append_nil]⟩

lemma select_two_uids (tools : List ToolMetadata) (maxT : Nat)
    (hne : ∃ t1 ∈ tools, ∃ t2 ∈ tools,
      ToolMetadata.upstream_id t1 ≠ ToolMetadata.upstream_id t2)
    (hmax : 2 ≤ maxT) :
    ∃ r1 ∈ select_default_tool_subset tools maxT,
      ∃ r2 ∈ select_default_tool_subset tools maxT,
        ToolMetadata.upstream_id r1 ≠ ToolMetadata.upstream_id r2 := by
  obtain ⟨t1, ht1, t2, ht2, hta⟩ := hne
  have htools_ne : tools ≠ [] := by
    intro hnil
    rw [hnil] at ht1
    cases ht1
  have hk1 := sortedGroupsOf_keys tools t1 ht1
  have hk2 := sortedGroupsOf_keys tools t2 ht2
  have hlen2 : 2 ≤ (sortedGroupsOf tools).length := by
    have := two_distinct_mem_length hk1 hk2 hta
    rwa [List.length_map] at this
  obtain ⟨good, hnd⟩ := sortedGroupsOf_good tools
  rcases hsg : sortedGroupsOf tools with _ | ⟨⟨u1, g1⟩, _ | ⟨⟨u2, g2⟩, rest⟩⟩
  · rw [hsg] at hlen2
    simp only [List.length_nil] at hlen2
    omega
  · rw [hsg] at hlen2
    simp only [List.length_cons, List.length_nil] at hlen2
    omega
  rw [hsg] at good hnd
  have hmem1 : ((u1, g1) : PyStr × List ToolMetadata) ∈
      (u1, g1) :: (u2, g2) :: rest := List.mem_cons_self _ _
  have hmem2 : ((u2, g2) : PyStr × List ToolMetadata) ∈
      (u1, g1) :: (u2, g2) :: rest := List.mem_cons_of_mem _ (List.mem_cons_self _ _)
  have hg1ne : g1 ≠ [] := (good _ hmem1).1
  have hg2ne : g2 ≠ [] := (good _ hmem2).1
  have huid1 : ∀ t ∈ g1, ToolMetadata.upstream_id t = u1 := (good _ hmem1).2
  have huid2 : ∀ t ∈ g2, ToolMetadata.upstream_id t = u2 := (good _ hmem2).2
  have hu12 : u1 ≠ u2 := by
    rw [List.map_cons, List.map_cons, List.nodup_cons] at hnd
    intro he
    exact hnd.1 (he ▸ List.mem_cons_self u2 _)
  set base := baseOf tools maxT with hbase
  have hbase1 : 1 ≤ base := le_max_left _ _
  have hbase_le : base ≤ maxT - 1 := by
    have hnum : 2 ≤ (sortedGroupsOf tools).length := hlen2
    have hd1 : maxT / (sortedGroupsOf tools).length ≤ maxT / 2 :=
      Nat.div_le_div_left hnum (by omega)
    have hd2 : maxT / 2 < maxT := Nat.div_lt_self (by omega) (by omega)
    rw [hbase]
    unfold baseOf
    exact max_le (by omega) (by omega)
  set seg1 := g1.take base with hseg1
  set tail := g2.take base ++ rest.flatMap (fun p => p.2.take base) with htail
  have hinit : initialOf tools maxT = seg1 ++ tail := by
    unfold initialOf
    rw [hsg, List.flatMap_cons, List.flatMap_cons]
  have hseg1pos : 0 < seg1.length := by
    rw [hseg1, List.length_take, lt_min_iff]
    exact ⟨by omega, List.length_pos.mpr hg1ne⟩
  have hseg2pos : 0 < (g2.take base).length := by
    rw [List.length_take, lt_min_iff]
    exact ⟨by omega, List.length_pos.mpr hg2ne⟩
  set k := seg1.length with hk
  have hk_le : k ≤ base := by
    rw [hk, hseg1, List.length_take]
    exact min_le_left _ _
  have hk_lt : k < maxT := by omega
  have hinitlen : k + 1 ≤ (initialOf tools maxT).length := by
    rw [hinit, List.length_append, htail, List.length_append]
    omega
  obtain ⟨ext, hsel⟩ := select_structure tools maxT (ne_nil_isEmpty_false htools_ne)
  -- first element
  have he1 : (select_default_tool_subset tools maxT)[0]? = seg1[0]? := by
    rw [hsel, List.getElem?_take_of_lt (by omega : 0 < maxT),
      List.getElem?_append_left (by rw [hinit, List.length_append]; omega),
      hinit, List.getElem?_append_left hseg1pos]
  have he2 : (select_default_tool_subset tools maxT)[k]? = (g2.take base)[0]? := by
    rw [hsel, List.getElem?_take_of_lt hk_lt,
      List.getElem?_append_left (by omega),
      hinit, List.getElem?_append_right (le_of_eq hk.symm)]
    rw [show k - seg1.length = 0 from by omega]
    rw [htail, List.getElem?_append_left hseg2pos]
  obtain ⟨x1, hx1⟩ : ∃ x, seg1[0]? = some x :=
    ⟨_, List.getElem?_eq_getElem hseg1pos⟩
  obtain ⟨x2, hx2⟩ : ∃ x, (g2.take base)[0]? = some x :=
    ⟨_, List.getElem?_eq_getElem hseg2pos⟩
  have hx1mem : x1 ∈ select_default_tool_subset tools maxT :=
    mem_of_getElemQ (by rw [he1]; exact hx1)
  have hx2mem : x2 ∈ select_default_tool_subset tools maxT :=
    mem_of_getElemQ (by rw [he2]; exact hx2)
  have hx1uid : ToolMetadata.upstream_id x1 = u1 :=
    huid1 x1 (List.take_subset _ _ (mem_of_getElemQ hx1))
  have hx2uid : ToolMetadata.upstream_id x2 = u2 :=
    huid2 x2 (List.take_subset _ _ (mem_of_getElemQ hx2))
  exact ⟨x1, hx1mem, x2, hx2mem, by rw [hx1uid, hx2uid]; exact hu12⟩

/-- C6 (amended): the default subset never exceeds `max_tools`; the
empty catalog yields the empty list; and whenever at least two distinct
upstreams contribute tools and `max_tools` is at least 2, the selection
contains tools of at least two distinct upstreams.  (With
`max_tools = 1` truncation leaves a single tool, so the two-upstream
guarantee needs `max_tools` at least 2; see the counterexample.) -/
theorem c6_default_subset_bounded_and_diverse (tools : List ToolMetadata) (max_tools : Nat) :
    (select_default_tool_subset tools max_tools).length ≤ max_tools ∧
    select_default_tool_subset [] max_tools = [] ∧
    ((∃ t1 ∈ tools, ∃ t2 ∈ tools,
        ToolMetadata.upstream_id t1 ≠ ToolMetadata.upstream_id t2) → 2 ≤ max_tools →
      ∃ r1 ∈ select_default_tool_subset tools max_tools,
        ∃ r2 ∈ select_default_tool_subset tools max_tools,
          ToolMetadata.upstream_id r1 ≠ ToolMetadata.upstream_id r2) := by
  refine ⟨?_, rfl, select_two_uids tools max_tools⟩
  unfold select_default_tool_subset
  by_cases h : tools.isEmpty = true
  · rw [if_pos h]
    exact Nat.zero_le _
  · rw [if_neg h, List.length_take]
    exact min_le_left _ _

/-- C6 counterexample: with two upstreams of one tool each and
`max_tools = 1` — allowed by the claim, which demands only
`max_n ≥ 1` — the result is truncated to one tool, so fewer than
min(2, number of upstreams) = 2 distinct upstreams appear. -/
theorem c6_counterexample_max_one :
    (∃ t1 ∈ [mkTool "a.x" "x" "a", mkTool "b.y" "y" "b"],
      ∃ t2 ∈ [mkTool "a.x" "x" "a", mkTool "b.y" "y" "b"],
        ToolMetadata.upstream_id t1 ≠ ToolMetadata.upstream_id t2) ∧
    ¬ (∃ r1 ∈ select_default_tool_subset [mkTool "a.x" "x" "a", mkTool "b.y" "y" "b"] 1,
      ∃ r2 ∈ select_default_tool_subset [mkTool "a.x" "x" "a", mkTool "b.y" "y" "b"] 1,
        ToolMetadata.upstream_id r1 ≠ ToolMetadata.upstream_id r2) :=
  ⟨⟨mkTool "a.x" "x" "a", List.mem_cons_self _ _,
    mkTool "b.y" "y" "b", List.mem_cons_of_mem _ (List.mem_cons_self _ _), by decide⟩,
    by decide⟩

/-- Witness for C6 on a concrete two-upstream catalog with
`max_tools = 2`. -/
theorem c6_witness :
    (select_default_tool_subset [mkTool "a.x" "x" "a", mkTool "b.y" "y" "b"] 2).length ≤ 2 ∧
    (∃ r1 ∈ select_default_tool_subset [mkTool "a.x" "x" "a", mkTool "b.y" "y" "b"] 2,
      ∃ r2 ∈ select_default_tool_subset [mkTool "a.x" "x" "a", mkTool "b.y" "y" "b"] 2,
        ToolMetadata.upstream_id r1 ≠ ToolMetadata.upstream_id r2) :=
  ⟨(c6_default_subset_bounded_and_diverse
      [mkTool "a.x" "x" "a", mkTool "b.y" "y" "b"] 2).1,
    (c6_default_subset_bounded_and_diverse
      [mkTool "a.x" "x" "a", mkTool "b.y" "y" "b"] 2).2.2
      ⟨mkTool "a.x" "x" "a", List.mem_cons_self _ _,
        mkTool "b.y" "y" "b", List.mem_cons_of_mem _ (List.mem_cons_self _ _), by decide⟩
      (by omega)⟩
